import Mathlib

/-!
A shallow embedding of `pkg/api/trillian_client.go` from the rekor
repository: a verifiable append-only log client over a remote Trillian
backend.

The remote Trillian services (`TrillianLogClient`, `TrillianAdminClient`)
and the external trillian library helpers (`LogRootV1.UnmarshalBinary`,
`merkle.LogVerifier.VerifyInclusionProof`, `client.InitLog`) are collaborators
outside this repository; they are modelled as abstract function parameters.
Each client operation is translated statement by statement from the Go
source.  The returned value mirrors Go's `(value, error)` pair; an
`Except Crash` layer records the two abnormal exits present in the source
(a nil-pointer dereference, and process termination through
`log.Logger.Fatal`).  Alongside its result, every operation also yields a
trace of the remote calls it performed (with the deadline of the context
it passed) and of the proof-verifier invocations it made.
-/

namespace Rekor

/-- Byte strings, modelled as lists of naturals. -/
abbrev Bytes := List Nat

/-- A Go `context.Context`, reduced to the only observable this client ever
sets on one: an optional deadline in seconds.  `context.Background()` has no
deadline; `context.WithTimeout(ctx, 20*time.Second)` has `some 20`. -/
structure Ctx where
  deadline : Option Nat
deriving DecidableEq, Repr

/-- `context.Background()`. -/
def Ctx.background : Ctx := { deadline := none }

/-- `context.WithTimeout(context.Background(), 20*time.Second)`. -/
def Ctx.timeout20 : Ctx := { deadline := some 20 }

/-- A Go error value as observed by this client: a gRPC status error
carrying a canonical code, or any other error (decode failures,
verification failures, ...). -/
inductive GoErr
  | grpc (code : Int)
  | other (msg : String)
deriving DecidableEq, Repr

/-- Canonical gRPC status codes used by the client. -/
def Codes.OK : Int := 0

def Codes.Unknown : Int := 2

def Codes.DeadlineExceeded : Int := 4

def Codes.NotFound : Int := 5

def Codes.AlreadyExists : Int := 6

def Codes.Unavailable : Int := 14

/-- `status.Code(err)`: `OK` for a nil error, the embedded code for a gRPC
status error, `Unknown` for any other error. -/
def statusCode : Option GoErr → Int
  | none => Codes.OK
  | some (.grpc c) => c
  | some (.other _) => Codes.Unknown

/-- Abnormal termination of a client call: a nil-pointer dereference, or
process termination via `log.Logger.Fatal`. -/
inductive Crash
  | nilDereference
  | fatal (e : GoErr)
deriving DecidableEq, Repr

/-- The `(resp, err)` pair a Go gRPC stub call returns; either component
may be nil. -/
abbrev RpcOutcome (α : Type) := Option α × Option GoErr

/-- `types.LogRootV1`: the decoded signed tree head.  `TreeSize` is a Go
`uint64`, modelled as `Nat`. -/
structure LogRootV1 where
  treeSize : Nat
  rootHash : Bytes
  timestampNanos : Nat
  revision : Nat
  metadata : Bytes
deriving DecidableEq, Repr

/-- The Go zero value `types.LogRootV1{}`. -/
def LogRootV1.empty : LogRootV1 :=
  { treeSize := 0, rootHash := [], timestampNanos := 0, revision := 0, metadata := [] }

/-- The Go conversion `int64(n)` applied to a `uint64` value. -/
def uint64ToInt64 (n : Nat) : Int :=
  if n % 2 ^ 64 < 2 ^ 63 then ((n % 2 ^ 64 : Nat) : Int) else ((n % 2 ^ 64 : Nat) : Int) - 2 ^ 64

/-- `trillian.SignedLogRoot`: the signed tree head as an undecoded blob. -/
structure SignedLogRoot where
  keyHint : Bytes
  logRoot : Bytes
  logRootSignature : Bytes
deriving DecidableEq, Repr

structure GetLatestSignedLogRootRequest where
  logId : Int
  firstTreeSize : Int
deriving DecidableEq, Repr

/-- `SignedLogRoot` is a pointer field in Go, hence the `Option`. -/
structure GetLatestSignedLogRootResponse where
  signedLogRoot : Option SignedLogRoot
deriving DecidableEq, Repr

/-- `trillian.LogLeaf`; only `LeafValue` is ever set by this client. -/
structure LogLeaf where
  merkleLeafHash : Bytes
  leafValue : Bytes
  extraData : Bytes
  leafIndex : Int
deriving DecidableEq, Repr

structure QueueLeafRequest where
  logId : Int
  leaf : LogLeaf
deriving DecidableEq, Repr

/-- `google.rpc.Status` attached to a queued leaf. -/
structure RpcStatus where
  code : Int
  message : String
deriving DecidableEq, Repr

structure QueuedLogLeaf where
  leaf : Option LogLeaf
  status : Option RpcStatus
deriving DecidableEq, Repr

structure QueueLeafResponse where
  queuedLeaf : Option QueuedLogLeaf
deriving DecidableEq, Repr

/-- The generated nil-safe getter `(*QueuedLogLeaf).GetStatus()`. -/
def QueuedLogLeaf.getStatus : Option QueuedLogLeaf → Option RpcStatus
  | none => none
  | some q => q.status

/-- The generated nil-safe getter `(*status.Status).GetCode()`. -/
def RpcStatus.getCode : Option RpcStatus → Int
  | none => 0
  | some s => s.code

structure GetLeavesByHashRequest where
  logId : Int
  leafHash : List Bytes
deriving DecidableEq, Repr

structure GetLeavesByHashResponse where
  leaves : List LogLeaf
deriving DecidableEq, Repr

structure GetLeavesByIndexRequest where
  logId : Int
  leafIndex : List Int
deriving DecidableEq, Repr

structure GetLeavesByIndexResponse where
  leaves : List LogLeaf
deriving DecidableEq, Repr

/-- `trillian.Proof`: a Merkle proof as a leaf index plus sibling hashes. -/
structure Proof where
  leafIndex : Int
  hashes : List Bytes
deriving DecidableEq, Repr

structure GetInclusionProofByHashRequest where
  logId : Int
  leafHash : Bytes
  treeSize : Int
deriving DecidableEq, Repr

structure GetInclusionProofByHashResponse where
  proof : List Proof
deriving DecidableEq, Repr

structure GetConsistencyProofRequest where
  logId : Int
  firstTreeSize : Int
  secondTreeSize : Int
deriving DecidableEq, Repr

structure GetConsistencyProofResponse where
  proof : Option Proof
deriving DecidableEq, Repr

/-- The remote `trillian.TrillianLogClient` interface the client is built
over: one oracle function per remote procedure, given the context the
client passes (its deadline is the observable) and the request. -/
structure TrillianLogClientApi where
  getLatestSignedLogRoot : Ctx → GetLatestSignedLogRootRequest → RpcOutcome GetLatestSignedLogRootResponse
  queueLeaf : Ctx → QueueLeafRequest → RpcOutcome QueueLeafResponse
  getLeavesByHash : Ctx → GetLeavesByHashRequest → RpcOutcome GetLeavesByHashResponse
  getLeavesByIndex : Ctx → GetLeavesByIndexRequest → RpcOutcome GetLeavesByIndexResponse
  getInclusionProofByHash : Ctx → GetInclusionProofByHashRequest → RpcOutcome GetInclusionProofByHashResponse
  getConsistencyProof : Ctx → GetConsistencyProofRequest → RpcOutcome GetConsistencyProofResponse

/-- One observable event of a client operation: a remote call (recording
the deadline of the context passed and the request), or one invocation of
the inclusion-proof verifier with the exact arguments the code passes. -/
inductive TraceEvent
  | rpcLatestRoot (deadline : Option Nat) (rqst : GetLatestSignedLogRootRequest)
  | rpcQueueLeaf (deadline : Option Nat) (rqst : QueueLeafRequest)
  | rpcLeavesByHash (deadline : Option Nat) (rqst : GetLeavesByHashRequest)
  | rpcLeavesByIndex (deadline : Option Nat) (rqst : GetLeavesByIndexRequest)
  | rpcInclusionProof (deadline : Option Nat) (rqst : GetInclusionProofByHashRequest)
  | rpcConsistencyProof (deadline : Option Nat) (rqst : GetConsistencyProofRequest)
  | verifyInclusion (leafIndex : Int) (treeSize : Int) (hashes : List Bytes)
      (rootHash : Bytes) (leafHash : Bytes)
deriving DecidableEq, Repr

/-- The deadline recorded on a remote-call event (`none` for verifier
events, which make no remote call). -/
def TraceEvent.rpcDeadline : TraceEvent → Option (Option Nat)
  | .rpcLatestRoot d _ => some d
  | .rpcQueueLeaf d _ => some d
  | .rpcLeavesByHash d _ => some d
  | .rpcLeavesByIndex d _ => some d
  | .rpcInclusionProof d _ => some d
  | .rpcConsistencyProof d _ => some d
  | .verifyInclusion _ _ _ _ _ => none

/-- The `Response` struct of `trillian_client.go`; unset pointer fields are
`none`, and the zero status is `codes.OK = 0`. -/
structure Response where
  status : Int := 0
  getAddResult : Option QueueLeafResponse := none
  getLeafResult : Option GetLeavesByHashResponse := none
  getProofResult : Option GetInclusionProofByHashResponse := none
  getLeafByIndexResult : Option GetLeavesByIndexResponse := none
  getLatestResult : Option GetLatestSignedLogRootResponse := none
  getConsistencyProofResult : Option GetConsistencyProofResponse := none
deriving DecidableEq, Repr

/-- The Go composite literal `&Response{}`. -/
def Response.empty : Response := {}

/-- The `TrillianClient` struct: a remote stub plus the bound log id. -/
structure TrillianClient where
  client : TrillianLogClientApi
  logID : Int

/-- `TrillianClientInstance`. -/
def TrillianClientInstance (client : TrillianLogClientApi) (tLogID : Int) : TrillianClient :=
  { client := client, logID := tLogID }

/-- `types.LogRootV1.UnmarshalBinary` is external trillian library code;
the client treats it as an abstract decoder, so it is a parameter of the
model. -/
abbrev UnmarshalLogRoot := Bytes → Except GoErr LogRootV1

/-- `merkle.NewLogVerifier(rfc6962.DefaultHasher).VerifyInclusionProof` is
external trillian library code; the client treats it as an abstract
checker, so it is a parameter of the model: `none` means verification
succeeded, `some e` is the error it returned.  Arguments in source order:
leaf index, tree size, proof hashes, root hash, leaf hash. -/
abbrev InclusionVerifier := Int → Int → List Bytes → Bytes → Bytes → Option GoErr

/-- `(t *TrillianClient) root()`: one remote `GetLatestSignedLogRoot` call
on a background context, then `root.UnmarshalBinary(resp.SignedLogRoot.LogRoot)`;
on any failure it returns the zero `LogRootV1` together with the error. -/
def TrillianClient.root (t : TrillianClient) (u : UnmarshalLogRoot) :
    Except Crash (LogRootV1 × Option GoErr) × List TraceEvent :=
  let rqst : GetLatestSignedLogRootRequest := { logId := t.logID, firstTreeSize := 0 }
  let ctx := Ctx.background
  let tr := [TraceEvent.rpcLatestRoot ctx.deadline rqst]
  match t.client.getLatestSignedLogRoot ctx rqst with
  | (_, some e) => (.ok (LogRootV1.empty, some e), tr)
  | (none, none) => (.error .nilDereference, tr)
  | (some resp, none) =>
    match resp.signedLogRoot with
    | none => (.error .nilDereference, tr)
    | some slr =>
      match u slr.logRoot with
      | .error e => (.ok (LogRootV1.empty, some e), tr)
      | .ok root => (.ok (root, none), tr)

/-- `(t *TrillianClient) addLeaf(byteValue)`: queues the leaf on a
background context.  On a remote error the code only prints the error
(`fmt.Println(err)`) and falls through; it then reads
`resp.QueuedLeaf.GetStatus().GetCode()` unconditionally, which is a
nil-pointer dereference when `resp` is nil, and always returns a nil Go
error otherwise. -/
def TrillianClient.addLeaf (t : TrillianClient) (byteValue : Bytes) :
    Except Crash (Option Response × Option GoErr) × List TraceEvent :=
  let leaf : LogLeaf := { merkleLeafHash := [], leafValue := byteValue, extraData := [], leafIndex := 0 }
  let rqst : QueueLeafRequest := { logId := t.logID, leaf := leaf }
  let ctx := Ctx.background
  let tr := [TraceEvent.rpcQueueLeaf ctx.deadline rqst]
  match t.client.queueLeaf ctx rqst with
  | (none, _) => (.error .nilDereference, tr)
  | (some resp, _) =>
    (.ok (some { status := RpcStatus.getCode (QueuedLogLeaf.getStatus resp.queuedLeaf),
                 getAddResult := some resp }, none), tr)

/-- `(t *TrillianClient) getLeafByHash(hashValues)`: batched lookup on a
background context; on a remote error the code calls
`log.Logger.Fatal(err)`, terminating the process. -/
def TrillianClient.getLeafByHash (t : TrillianClient) (hashValues : List Bytes) :
    Except Crash (Option Response × Option GoErr) × List TraceEvent :=
  let rqst : GetLeavesByHashRequest := { logId := t.logID, leafHash := hashValues }
  let ctx := Ctx.background
  let tr := [TraceEvent.rpcLeavesByHash ctx.deadline rqst]
  match t.client.getLeavesByHash ctx rqst with
  | (_, some e) => (.error (.fatal e), tr)
  | (resp?, none) =>
    (.ok (some { status := statusCode none, getLeafResult := resp? }, none), tr)

/-- `(t *TrillianClient) getLeafByIndex(indexes)`: lookup on a 20-second
context; the outcome code of the call is folded into `Response.status` and
the Go error returned is always nil. -/
def TrillianClient.getLeafByIndex (t : TrillianClient) (indexes : List Int) :
    Except Crash (Option Response × Option GoErr) × List TraceEvent :=
  let ctx := Ctx.timeout20
  let rqst : GetLeavesByIndexRequest := { logId := t.logID, leafIndex := indexes }
  let tr := [TraceEvent.rpcLeavesByIndex ctx.deadline rqst]
  match t.client.getLeavesByIndex ctx rqst with
  | (resp?, err?) =>
    (.ok (some { status := statusCode err?, getLeafByIndexResult := resp? }, none), tr)

/-- The verification loop of `getProofByHash`: for each returned proof the
verifier is invoked with the proof's leaf index and hashes and the fetched
root's size and hash; the loop stops at the first verification error.
Returns that first error (if any) together with the verifier invocations
performed. -/
def verifyProofs (v : InclusionVerifier) (treeSize : Int) (rootHash leafHash : Bytes) :
    List Proof → Option GoErr × List TraceEvent
  | [] => (none, [])
  | p :: rest =>
    let ev := TraceEvent.verifyInclusion p.leafIndex treeSize p.hashes rootHash leafHash
    match v p.leafIndex treeSize p.hashes rootHash leafHash with
    | some e => (some e, [ev])
    | none =>
      let r := verifyProofs v treeSize rootHash leafHash rest
      (r.1, ev :: r.2)

/-- `(t *TrillianClient) getProofByHash(hashValue)`: fetches the current
root with `t.root()` (failing early on error), requests the inclusion
proof at `int64(root.TreeSize)` on a 20-second context, then verifies
every returned proof against that same root; a verification failure
returns `&Response{}` and the error. -/
def TrillianClient.getProofByHash (t : TrillianClient) (u : UnmarshalLogRoot)
    (v : InclusionVerifier) (hashValue : Bytes) :
    Except Crash (Option Response × Option GoErr) × List TraceEvent :=
  let ctx := Ctx.timeout20
  match t.root u with
  | (.error c, tr0) => (.error c, tr0)
  | (.ok (_, some e), tr0) => (.ok (some Response.empty, some e), tr0)
  | (.ok (root, none), tr0) =>
    let rqst : GetInclusionProofByHashRequest :=
      { logId := t.logID, leafHash := hashValue, treeSize := uint64ToInt64 root.treeSize }
    let tr1 := tr0 ++ [TraceEvent.rpcInclusionProof ctx.deadline rqst]
    match t.client.getInclusionProofByHash ctx rqst with
    | (none, err?) =>
      (.ok (some { status := statusCode err?, getProofResult := none }, none), tr1)
    | (some resp, err?) =>
      match verifyProofs v (uint64ToInt64 root.treeSize) root.rootHash hashValue resp.proof with
      | (some e, evs) => (.ok (some Response.empty, some e), tr1 ++ evs)
      | (none, evs) =>
        (.ok (some { status := statusCode err?, getProofResult := some resp }, none), tr1 ++ evs)

/-- `(t *TrillianClient) getLatest(leafSizeInt)`: fetches the latest signed
root at a minimum first tree size on a 20-second context; on a remote
error it returns a nil `Response` and the error. -/
def TrillianClient.getLatest (t : TrillianClient) (leafSizeInt : Int) :
    Except Crash (Option Response × Option GoErr) × List TraceEvent :=
  let ctx := Ctx.timeout20
  let rqst : GetLatestSignedLogRootRequest := { logId := t.logID, firstTreeSize := leafSizeInt }
  let tr := [TraceEvent.rpcLatestRoot ctx.deadline rqst]
  match t.client.getLatestSignedLogRoot ctx rqst with
  | (_, some e) => (.ok (none, some e), tr)
  | (resp?, none) =>
    (.ok (some { status := statusCode none, getLatestResult := resp? }, none), tr)

/-- `(t *TrillianClient) getConsistencyProof(firstSize, lastSize)`: fetches
the consistency proof between the two sizes on a 20-second context and
returns it as received — no verifier is invoked; on a remote error it
returns a nil `Response` and the error. -/
def TrillianClient.getConsistencyProof (t : TrillianClient) (firstSize lastSize : Int) :
    Except Crash (Option Response × Option GoErr) × List TraceEvent :=
  let ctx := Ctx.timeout20
  let rqst : GetConsistencyProofRequest :=
    { logId := t.logID, firstTreeSize := firstSize, secondTreeSize := lastSize }
  let tr := [TraceEvent.rpcConsistencyProof ctx.deadline rqst]
  match t.client.getConsistencyProof ctx rqst with
  | (_, some e) => (.ok (none, some e), tr)
  | (resp?, none) =>
    (.ok (some { status := statusCode none, getConsistencyProofResult := resp? }, none), tr)

/-! ### The tree bootstrapper (`createAndInitTree`) and its admin backend -/

inductive TreeType
  | unknownTreeType
  | log
  | map
  | preorderedLog
deriving DecidableEq, Repr

inductive TreeState
  | unknownTreeState
  | active
  | frozen
deriving DecidableEq, Repr

inductive HashStrategy
  | unknownHashStrategy
  | rfc6962Sha256
deriving DecidableEq, Repr

inductive HashAlgorithm
  | noneAlgorithm
  | sha256
deriving DecidableEq, Repr

inductive SignatureAlgorithm
  | anonymous
  | ecdsa
  | rsa
deriving DecidableEq, Repr

/-- `trillian.Tree`: the administrative record of one logical log. -/
structure Tree where
  treeId : Int
  treeType : TreeType
  hashStrategy : HashStrategy
  hashAlgorithm : HashAlgorithm
  signatureAlgorithm : SignatureAlgorithm
  treeState : TreeState
  maxRootDurationSeconds : Nat
deriving DecidableEq, Repr

structure ListTreesRequest where
  showDeleted : Bool := false
deriving DecidableEq, Repr

structure ListTreesResponse where
  tree : List Tree
deriving DecidableEq, Repr

inductive KeySpecParams
  | ecdsaParams
  | rsaParams
deriving DecidableEq, Repr

structure KeySpec where
  params : KeySpecParams
deriving DecidableEq, Repr

structure CreateTreeRequest where
  tree : Option Tree
  keySpec : KeySpec
deriving DecidableEq, Repr

/-- The remote `trillian.TrillianAdminClient` interface: stateful oracles
over an abstract backend state `σ`, since `createAndInitTree` is specified
through two successive calls against the same administrative scope. -/
structure TrillianAdminClientApi (σ : Type) where
  listTrees : Ctx → ListTreesRequest → σ → RpcOutcome ListTreesResponse × σ
  createTree : Ctx → CreateTreeRequest → σ → RpcOutcome Tree × σ

/-- `client.InitLog(ctx, tree, logClient)` is external trillian library
code; modelled as an abstract stateful initializer returning a Go error. -/
abbrev InitLogFn (σ : Type) := Ctx → Tree → σ → Option GoErr × σ

/-- Observable events of the bootstrapper. -/
inductive AdminEvent
  | listTrees (rqst : ListTreesRequest)
  | createTree (rqst : CreateTreeRequest)
  | initLog (t : Tree)
deriving DecidableEq, Repr

/-- The tree specification `createAndInitTree` submits: a LOG-type tree
with RFC 6962 SHA-256 hashing, SHA-256/ECDSA signing, active state and a
one-hour max root duration. -/
def newTreeSpec : Tree :=
  { treeId := 0, treeType := .log, hashStrategy := .rfc6962Sha256,
    hashAlgorithm := .sha256, signatureAlgorithm := .ecdsa,
    treeState := .active, maxRootDurationSeconds := 3600 }

/-- The `CreateTreeRequest` literal from the source, ECDSA key spec included. -/
def newTreeRequest : CreateTreeRequest :=
  { tree := some newTreeSpec, keySpec := { params := .ecdsaParams } }

/-- `createAndInitTree(ctx, adminClient, logClient)`: list the trees in
scope and return the first of type LOG; otherwise create a new LOG tree
and run `client.InitLog` on it before returning it.  Any remote error is
returned with a nil tree. -/
def createAndInitTree {σ : Type} (ctx : Ctx) (adminClient : TrillianAdminClientApi σ)
    (initLogFn : InitLogFn σ) (s : σ) :
    Except Crash (Option Tree × Option GoErr) × σ × List AdminEvent :=
  let lrqst : ListTreesRequest := {}
  match adminClient.listTrees ctx lrqst s with
  | ((_, some e), s1) => (.ok (none, some e), s1, [AdminEvent.listTrees lrqst])
  | ((none, none), s1) => (.error .nilDereference, s1, [AdminEvent.listTrees lrqst])
  | ((some trees, none), s1) =>
    match trees.tree.find? (fun t => t.treeType == TreeType.log) with
    | some t => (.ok (some t, none), s1, [AdminEvent.listTrees lrqst])
    | none =>
      match adminClient.createTree ctx newTreeRequest s1 with
      | ((_, some e), s2) =>
        (.ok (none, some e), s2, [AdminEvent.listTrees lrqst, AdminEvent.createTree newTreeRequest])
      | ((none, none), s2) =>
        (.error .nilDereference, s2, [AdminEvent.listTrees lrqst, AdminEvent.createTree newTreeRequest])
      | ((some t, none), s2) =>
        match initLogFn ctx t s2 with
        | (some e, s3) =>
          (.ok (none, some e), s3,
            [AdminEvent.listTrees lrqst, AdminEvent.createTree newTreeRequest, AdminEvent.initLog t])
        | (none, s3) =>
          (.ok (some t, none), s3,
            [AdminEvent.listTrees lrqst, AdminEvent.createTree newTreeRequest, AdminEvent.initLog t])

/-- Modelled from the spec: the remote admin service itself is outside this
repository (spec section 6: `ListTrees(scope) -> trees[]`,
`CreateTree(spec) -> tree`, `InitializeTree(tree) -> Ok | Error`), so the
natural stateful semantics is used — the scope holds a list of trees,
`ListTrees` returns it, and `CreateTree` appends the requested tree under
a fresh identifier. -/
structure AdminState where
  trees : List Tree
  nextId : Int
deriving DecidableEq, Repr

/-- Modelled from the spec: honest semantics of the remote admin service
(see `AdminState`). -/
def honestAdmin : TrillianAdminClientApi AdminState :=
  { listTrees := fun _ _ s => ((some { tree := s.trees }, none), s),
    createTree := fun _ rqst s =>
      match rqst.tree with
      | none => ((none, some (.grpc 3)), s)
      | some spec =>
        let t := { spec with treeId := s.nextId }
        ((some t, none), { trees := s.trees ++ [t], nextId := s.nextId + 1 }) }

/-- Modelled from the spec: an initialization step that succeeds, the
happy path of `InitializeTree`. -/
def honestInitLog : InitLogFn AdminState := fun _ _ s => (none, s)

/-! ### Concrete instances used to evaluate the model -/

/-- A backend whose every remote procedure fails with `UNAVAILABLE` and a
nil response. -/
def failingLogApi : TrillianLogClientApi :=
  { getLatestSignedLogRoot := fun _ _ => (none, some (.grpc Codes.Unavailable)),
    queueLeaf := fun _ _ => (none, some (.grpc Codes.Unavailable)),
    getLeavesByHash := fun _ _ => (none, some (.grpc Codes.Unavailable)),
    getLeavesByIndex := fun _ _ => (none, some (.grpc Codes.Unavailable)),
    getInclusionProofByHash := fun _ _ => (none, some (.grpc Codes.Unavailable)),
    getConsistencyProof := fun _ _ => (none, some (.grpc Codes.Unavailable)) }

def failingClient : TrillianClient := TrillianClientInstance failingLogApi 1

/-- The root this development's concrete backend serves. -/
def sampleRoot : LogRootV1 :=
  { treeSize := 4, rootHash := [7, 7], timestampNanos := 9, revision := 1, metadata := [] }

/-- The single proof entry the concrete backend returns. -/
def sampleProof : Proof := { leafIndex := 1, hashes := [[3], [4]] }

/-- A backend whose every remote procedure succeeds: the latest-root call
serves blob `[255]`, the inclusion-proof call serves `sampleProof`, the
queue call reports `ALREADY_EXISTS`, and the consistency-proof call serves
an arbitrary hash list (never verified by the client). -/
def okSignedLogRoot : SignedLogRoot := { keyHint := [], logRoot := [255], logRootSignature := [] }

/-- The queued-leaf payload the concrete backend reports on submission. -/
def dupQueuedLeaf : QueuedLogLeaf :=
  { leaf := none, status := some { code := Codes.AlreadyExists, message := "duplicate" } }

def dupQueueLeafResponse : QueueLeafResponse := { queuedLeaf := some dupQueuedLeaf }

/-- The consistency-proof payload the concrete backend serves. -/
def sampleConsistencyResponse : GetConsistencyProofResponse :=
  { proof := some { leafIndex := 0, hashes := [[9]] } }

def okLogApi : TrillianLogClientApi :=
  { getLatestSignedLogRoot := fun _ _ => (some { signedLogRoot := some okSignedLogRoot }, none),
    queueLeaf := fun _ _ => (some dupQueueLeafResponse, none),
    getLeavesByHash := fun _ _ => (some { leaves := [] }, none),
    getLeavesByIndex := fun _ _ => (some { leaves := [] }, none),
    getInclusionProofByHash := fun _ _ => (some { proof := [sampleProof] }, none),
    getConsistencyProof := fun _ _ => (some sampleConsistencyResponse, none) }

def okClient : TrillianClient := TrillianClientInstance okLogApi 1

/-- A decoder that decodes blob `[255]` to `sampleRoot` and rejects
everything else. -/
def sampleUnmarshal : UnmarshalLogRoot :=
  fun b => if b = [255] then .ok sampleRoot else .error (.other "malformed root blob")

/-- A verifier that accepts every proof. -/
def acceptAll : InclusionVerifier := fun _ _ _ _ _ => none

/-- A verifier that rejects every proof. -/
def rejectAll : InclusionVerifier := fun _ _ _ _ _ => some (.other "inclusion proof invalid")

/-- A backend that expires: every remote procedure reports
`DEADLINE_EXCEEDED`. -/
def timingOutLogApi : TrillianLogClientApi :=
  { getLatestSignedLogRoot := fun _ _ => (none, some (.grpc Codes.DeadlineExceeded)),
    queueLeaf := fun _ _ => (none, some (.grpc Codes.DeadlineExceeded)),
    getLeavesByHash := fun _ _ => (none, some (.grpc Codes.DeadlineExceeded)),
    getLeavesByIndex := fun _ _ => (none, some (.grpc Codes.DeadlineExceeded)),
    getInclusionProofByHash := fun _ _ => (none, some (.grpc Codes.DeadlineExceeded)),
    getConsistencyProof := fun _ _ => (none, some (.grpc Codes.DeadlineExceeded)) }

def timingOutClient : TrillianClient := TrillianClientInstance timingOutLogApi 1

/-- A tree already present in scope in the concrete bootstrap runs. -/
def existingLogTree : Tree :=
  { treeId := 42, treeType := .log, hashStrategy := .rfc6962Sha256,
    hashAlgorithm := .sha256, signatureAlgorithm := .ecdsa,
    treeState := .active, maxRootDurationSeconds := 3600 }

/-! ### Helper lemmas about the traces of the operations -/

/-- Whatever the backend does, `root` performs exactly one remote call, on
a context without a deadline. -/
theorem root_trace (t : TrillianClient) (u : UnmarshalLogRoot) :
    (t.root u).2 = [TraceEvent.rpcLatestRoot none { logId := t.logID, firstTreeSize := 0 }] := by
  unfold TrillianClient.root
  dsimp only
  split
  · rfl
  · rfl
  · split
    · rfl
    · split <;> rfl

/-- `getLeafByHash` performs exactly one remote call, on a context without
a deadline. -/
theorem getLeafByHash_trace (t : TrillianClient) (hashValues : List Bytes) :
    (t.getLeafByHash hashValues).2
      = [TraceEvent.rpcLeavesByHash none { logId := t.logID, leafHash := hashValues }] := by
  unfold TrillianClient.getLeafByHash
  dsimp only
  split <;> rfl

/-- `addLeaf` performs exactly one remote call, on a context without a
deadline. -/
theorem addLeaf_trace (t : TrillianClient) (byteValue : Bytes) :
    (t.addLeaf byteValue).2
      = [TraceEvent.rpcQueueLeaf none
          { logId := t.logID,
            leaf := { merkleLeafHash := [], leafValue := byteValue, extraData := [], leafIndex := 0 } }] := by
  unfold TrillianClient.addLeaf
  dsimp only
  split <;> rfl

/-- `getLeafByIndex` performs exactly one remote call, on a context with a
20-second deadline. -/
theorem getLeafByIndex_trace (t : TrillianClient) (indexes : List Int) :
    (t.getLeafByIndex indexes).2
      = [TraceEvent.rpcLeavesByIndex (some 20) { logId := t.logID, leafIndex := indexes }] := by
  unfold TrillianClient.getLeafByIndex
  dsimp only
  rfl

/-- `getLatest` performs exactly one remote call, on a context with a
20-second deadline. -/
theorem getLatest_trace (t : TrillianClient) (leafSizeInt : Int) :
    (t.getLatest leafSizeInt).2
      = [TraceEvent.rpcLatestRoot (some 20) { logId := t.logID, firstTreeSize := leafSizeInt }] := by
  unfold TrillianClient.getLatest
  dsimp only
  split <;> rfl

/-- `getConsistencyProof` performs exactly one remote call, on a context
with a 20-second deadline. -/
theorem getConsistencyProof_trace (t : TrillianClient) (firstSize lastSize : Int) :
    (t.getConsistencyProof firstSize lastSize).2
      = [TraceEvent.rpcConsistencyProof (some 20)
          { logId := t.logID, firstTreeSize := firstSize, secondTreeSize := lastSize }] := by
  unfold TrillianClient.getConsistencyProof
  dsimp only
  split <;> rfl

/-- The verification loop reports no error exactly when the verifier
accepts every entry of the list. -/
theorem verifyProofs_none_iff (v : InclusionVerifier) (ts : Int) (rh lh : Bytes)
    (l : List Proof) :
    (verifyProofs v ts rh lh l).1 = none ↔
      ∀ p ∈ l, v p.leafIndex ts p.hashes rh lh = none := by
  induction l with
  | nil => simp [verifyProofs]
  | cons p rest ih =>
    simp only [verifyProofs]
    cases h : v p.leafIndex ts p.hashes rh lh with
    | some e => simp [h]
    | none => simp [h, ih]

/-- When the loop reports no error, it has invoked the verifier once per
entry, in order, with the fetched root's data. -/
theorem verifyProofs_events_of_none (v : InclusionVerifier) (ts : Int) (rh lh : Bytes)
    (l : List Proof) (h : (verifyProofs v ts rh lh l).1 = none) :
    (verifyProofs v ts rh lh l).2
      = l.map (fun p => TraceEvent.verifyInclusion p.leafIndex ts p.hashes rh lh) := by
  induction l with
  | nil => simp [verifyProofs]
  | cons p rest ih =>
    revert h
    simp only [verifyProofs]
    cases hv : v p.leafIndex ts p.hashes rh lh with
    | some e => intro h; simp at h
    | none =>
      intro h
      simp only [List.map_cons, List.cons.injEq, true_and]
      exact ih h

/-- Every event the verification loop emits is a verifier invocation on
one of the listed proofs, at the given tree size, root hash and leaf
hash. -/
theorem verifyProofs_events_mem (v : InclusionVerifier) (ts : Int) (rh lh : Bytes)
    (l : List Proof) (ev : TraceEvent) (h : ev ∈ (verifyProofs v ts rh lh l).2) :
    ∃ p ∈ l, ev = TraceEvent.verifyInclusion p.leafIndex ts p.hashes rh lh := by
  induction l with
  | nil => simp [verifyProofs] at h
  | cons p rest ih =>
    revert h
    simp only [verifyProofs]
    cases hv : v p.leafIndex ts p.hashes rh lh with
    | some e =>
      intro h
      simp only [List.mem_singleton] at h
      exact ⟨p, List.mem_cons_self p rest, h⟩
    | none =>
      intro h
      rcases List.mem_cons.mp h with h1 | h2
      · exact ⟨p, List.mem_cons_self p rest, h1⟩
      · obtain ⟨q, hq, hev⟩ := ih h2
        exact ⟨q, List.mem_cons_of_mem p hq, hev⟩

/-! ### The claims -/

/-- Claim C9: `root` issues exactly one remote call with no internal
retry (its trace is always a single `GetLatestSignedLogRoot` call), and it
returns an error exactly when the remote call fails or the returned signed
root blob fails to decode; on either failure it returns the empty
`LogRootV1` value alongside the error, and on success the decoded root
with a nil error. -/
theorem root_single_call_error_contract (t : TrillianClient) (u : UnmarshalLogRoot)
    (resp? : Option GetLatestSignedLogRootResponse) (e : GoErr)
    (r : GetLatestSignedLogRootResponse) (slr : SignedLogRoot) (lr : LogRootV1) :
    ((t.root u).2 = [TraceEvent.rpcLatestRoot none { logId := t.logID, firstTreeSize := 0 }])
    ∧ (t.client.getLatestSignedLogRoot Ctx.background { logId := t.logID, firstTreeSize := 0 }
          = (resp?, some e) →
        (t.root u).1 = .ok (LogRootV1.empty, some e))
    ∧ (t.client.getLatestSignedLogRoot Ctx.background { logId := t.logID, firstTreeSize := 0 }
          = (some r, none) →
        r.signedLogRoot = some slr → u slr.logRoot = .error e →
        (t.root u).1 = .ok (LogRootV1.empty, some e))
    ∧ (t.client.getLatestSignedLogRoot Ctx.background { logId := t.logID, firstTreeSize := 0 }
          = (some r, none) →
        r.signedLogRoot = some slr → u slr.logRoot = .ok lr →
        (t.root u).1 = .ok (lr, none)) := by
  refine ⟨root_trace t u, ?_, ?_, ?_⟩
  · intro h
    rcases resp? with _ | r2 <;> simp [TrillianClient.root, h]
  · intro h hs hu
    simp [TrillianClient.root, h, hs, hu]
  · intro h hs hu
    simp [TrillianClient.root, h, hs, hu]

theorem root_single_call_error_contract_witness :
    (failingClient.root sampleUnmarshal).1
      = .ok (LogRootV1.empty, some (.grpc Codes.Unavailable))
    ∧ (okClient.root sampleUnmarshal).1 = .ok (sampleRoot, none) :=
  ⟨(root_single_call_error_contract failingClient sampleUnmarshal none (.grpc Codes.Unavailable)
      { signedLogRoot := none } { keyHint := [], logRoot := [], logRootSignature := [] }
      LogRootV1.empty).2.1 rfl,
   (root_single_call_error_contract okClient sampleUnmarshal none (.grpc Codes.Unavailable)
      { signedLogRoot := some okSignedLogRoot } okSignedLogRoot
      sampleRoot).2.2.2 rfl rfl (by simp [sampleUnmarshal, okSignedLogRoot, sampleRoot])⟩

/-- Claim C3 (code bug evidence): the propagation policy of the spec is
violated by `getLeafByHash`, which on a failed remote call invokes
`log.Logger.Fatal(err)` and terminates the process instead of returning
the failure to the caller: on a backend whose `GetLeavesByHash` fails with
`UNAVAILABLE`, the operation's outcome is process termination carrying the
error, not a returned result. -/
theorem getLeafByHash_terminates_instead_of_returning :
    (failingClient.getLeafByHash [[1]]).1 = .error (.fatal (.grpc Codes.Unavailable))
    ∧ ∀ res : Option Response × Option GoErr,
        (failingClient.getLeafByHash [[1]]).1 ≠ .ok res := by
  refine ⟨rfl, ?_⟩
  intro res
  simp [TrillianClient.getLeafByHash, failingClient, failingLogApi, TrillianClientInstance]

/-- Claim C10: when the remote `QueueLeaf` call fails with an error and a
nil response, `addLeaf` does not return that error: it reads the
queued-leaf status from the absent response, so the operation crashes on a
nil dereference instead of returning any `(Response, error)` pair. -/
theorem addLeaf_crashes_on_transport_failure (t : TrillianClient) (byteValue : Bytes)
    (e : GoErr)
    (hrpc : t.client.queueLeaf Ctx.background
        { logId := t.logID,
          leaf := { merkleLeafHash := [], leafValue := byteValue, extraData := [], leafIndex := 0 } }
        = (none, some e)) :
    (t.addLeaf byteValue).1 = .error Crash.nilDereference
    ∧ ∀ res : Option Response × Option GoErr, (t.addLeaf byteValue).1 ≠ .ok res := by
  have h1 : (t.addLeaf byteValue).1 = .error Crash.nilDereference := by
    simp [TrillianClient.addLeaf, hrpc]
  exact ⟨h1, fun res => by rw [h1]; simp⟩

theorem addLeaf_crashes_on_transport_failure_witness :
    (failingClient.addLeaf [1]).1 = .error Crash.nilDereference :=
  (addLeaf_crashes_on_transport_failure failingClient [1] (.grpc Codes.Unavailable) rfl).1

/-- Claim C4: when the remote `QueueLeaf` call succeeds and the queued
leaf's status is `ALREADY_EXISTS`, `addLeaf` surfaces that code in the
result's `status` field with a nil Go error — a distinct, non-error
outcome, not a transport failure. -/
theorem addLeaf_surfaces_already_exists (t : TrillianClient) (byteValue : Bytes)
    (resp : QueueLeafResponse)
    (hrpc : t.client.queueLeaf Ctx.background
        { logId := t.logID,
          leaf := { merkleLeafHash := [], leafValue := byteValue, extraData := [], leafIndex := 0 } }
        = (some resp, none))
    (hdup : RpcStatus.getCode (QueuedLogLeaf.getStatus resp.queuedLeaf) = Codes.AlreadyExists) :
    (t.addLeaf byteValue).1
      = .ok (some { status := Codes.AlreadyExists, getAddResult := some resp }, none)
    ∧ Codes.AlreadyExists ≠ Codes.Unavailable
    ∧ Codes.AlreadyExists ≠ Codes.Unknown := by
  refine ⟨?_, by decide, by decide⟩
  simp [TrillianClient.addLeaf, hrpc, hdup]

theorem addLeaf_surfaces_already_exists_witness :
    (okClient.addLeaf [1]).1
      = .ok (some { status := Codes.AlreadyExists, getAddResult := some dupQueueLeafResponse }, none) :=
  (addLeaf_surfaces_already_exists okClient [1] dupQueueLeafResponse rfl rfl).1

/-- Claim C7: `getLeafByIndex` makes its single remote call under a fixed
20-second deadline, and when the call fails with `DEADLINE_EXCEEDED` the
returned response carries exactly that code in its status — a value
distinct from `NotFound` and from the remote-failure codes `Unavailable`
and `Unknown`. -/
theorem getLeafByIndex_timeout_distinct (t : TrillianClient) (indexes : List Int)
    (resp? : Option GetLeavesByIndexResponse)
    (hrpc : t.client.getLeavesByIndex Ctx.timeout20 { logId := t.logID, leafIndex := indexes }
        = (resp?, some (.grpc Codes.DeadlineExceeded))) :
    (t.getLeafByIndex indexes).1
      = .ok (some { status := Codes.DeadlineExceeded, getLeafByIndexResult := resp? }, none)
    ∧ (t.getLeafByIndex indexes).2
      = [TraceEvent.rpcLeavesByIndex (some 20) { logId := t.logID, leafIndex := indexes }]
    ∧ Codes.DeadlineExceeded ≠ Codes.NotFound
    ∧ Codes.DeadlineExceeded ≠ Codes.Unavailable
    ∧ Codes.DeadlineExceeded ≠ Codes.Unknown := by
  refine ⟨?_, getLeafByIndex_trace t indexes, by decide, by decide, by decide⟩
  simp [TrillianClient.getLeafByIndex, hrpc, statusCode]

theorem getLeafByIndex_timeout_distinct_witness :
    (timingOutClient.getLeafByIndex [0]).1
      = .ok (some { status := Codes.DeadlineExceeded, getLeafByIndexResult := none }, none) :=
  (getLeafByIndex_timeout_distinct timingOutClient [0] none rfl).1

/-- Claim C8: for every pair of sizes, `getConsistencyProof` returns
whatever proof the remote authority served, unchanged and regardless of
its content, with a nil error and never invoking the inclusion-proof
verifier (its trace is the single remote call) — verification is left to
the caller. -/
theorem getConsistencyProof_returns_unverified (t : TrillianClient)
    (firstSize lastSize : Int) (resp : GetConsistencyProofResponse)
    (hrpc : t.client.getConsistencyProof Ctx.timeout20
        { logId := t.logID, firstTreeSize := firstSize, secondTreeSize := lastSize }
        = (some resp, none)) :
    (t.getConsistencyProof firstSize lastSize).1
      = .ok (some { status := statusCode none, getConsistencyProofResult := some resp }, none)
    ∧ (t.getConsistencyProof firstSize lastSize).2
      = [TraceEvent.rpcConsistencyProof (some 20)
          { logId := t.logID, firstTreeSize := firstSize, secondTreeSize := lastSize }]
    ∧ ∀ li ts hs rh lh,
        TraceEvent.verifyInclusion li ts hs rh lh ∉ (t.getConsistencyProof firstSize lastSize).2 := by
  refine ⟨?_, getConsistencyProof_trace t firstSize lastSize, ?_⟩
  · simp [TrillianClient.getConsistencyProof, hrpc]
  · intro li ts hs rh lh
    rw [getConsistencyProof_trace]
    simp

/-- The deadline of the 20-second context. -/
theorem Ctx.timeout20_deadline : Ctx.timeout20.deadline = some 20 := rfl

/-- The background context has no deadline. -/
theorem Ctx.background_deadline : Ctx.background.deadline = none := rfl

/-- Unfolding lemma: `getProofByHash` fails early with the crash of
`root`. -/
theorem getProofByHash_eq_crash (t : TrillianClient) (u : UnmarshalLogRoot)
    (v : InclusionVerifier) (hashValue : Bytes) (c : Crash) (tr0 : List TraceEvent)
    (hroot : t.root u = (.error c, tr0)) :
    t.getProofByHash u v hashValue = (.error c, tr0) := by
  simp [TrillianClient.getProofByHash, hroot]

/-- Unfolding lemma: `getProofByHash` returns the error of a failed root
fetch before making any further remote call. -/
theorem getProofByHash_eq_rootErr (t : TrillianClient) (u : UnmarshalLogRoot)
    (v : InclusionVerifier) (hashValue : Bytes) (root : LogRootV1) (e : GoErr)
    (tr0 : List TraceEvent)
    (hroot : t.root u = (.ok (root, some e), tr0)) :
    t.getProofByHash u v hashValue = (.ok (some Response.empty, some e), tr0) := by
  simp [TrillianClient.getProofByHash, hroot]

/-- Unfolding lemma: when the proof request returns a nil response the
verification loop is skipped and the call's code is folded into the
status. -/
theorem getProofByHash_eq_noResp (t : TrillianClient) (u : UnmarshalLogRoot)
    (v : InclusionVerifier) (hashValue : Bytes) (root : LogRootV1)
    (tr0 : List TraceEvent) (err? : Option GoErr)
    (hroot : t.root u = (.ok (root, none), tr0))
    (hrpc : t.client.getInclusionProofByHash Ctx.timeout20
        { logId := t.logID, leafHash := hashValue, treeSize := uint64ToInt64 root.treeSize }
        = (none, err?)) :
    t.getProofByHash u v hashValue
      = (.ok (some { status := statusCode err?, getProofResult := none }, none),
         tr0 ++ [TraceEvent.rpcInclusionProof (some 20)
           { logId := t.logID, leafHash := hashValue, treeSize := uint64ToInt64 root.treeSize }]) := by
  simp [TrillianClient.getProofByHash, hroot, hrpc, Ctx.timeout20_deadline]

/-- Unfolding lemma: a verification failure makes `getProofByHash` return
`&Response{}` with the verification error. -/
theorem getProofByHash_eq_verifyFail (t : TrillianClient) (u : UnmarshalLogRoot)
    (v : InclusionVerifier) (hashValue : Bytes) (root : LogRootV1)
    (tr0 : List TraceEvent) (resp : GetInclusionProofByHashResponse)
    (err? : Option GoErr) (e : GoErr) (evs : List TraceEvent)
    (hroot : t.root u = (.ok (root, none), tr0))
    (hrpc : t.client.getInclusionProofByHash Ctx.timeout20
        { logId := t.logID, leafHash := hashValue, treeSize := uint64ToInt64 root.treeSize }
        = (some resp, err?))
    (hvp : verifyProofs v (uint64ToInt64 root.treeSize) root.rootHash hashValue resp.proof
        = (some e, evs)) :
    t.getProofByHash u v hashValue
      = (.ok (some Response.empty, some e),
         (tr0 ++ [TraceEvent.rpcInclusionProof (some 20)
           { logId := t.logID, leafHash := hashValue, treeSize := uint64ToInt64 root.treeSize }]) ++ evs) := by
  simp [TrillianClient.getProofByHash, hroot, hrpc, hvp, Ctx.timeout20_deadline]

/-- Unfolding lemma: when every returned proof verifies, `getProofByHash`
returns the response with the call's code folded into the status. -/
theorem getProofByHash_eq_verified (t : TrillianClient) (u : UnmarshalLogRoot)
    (v : InclusionVerifier) (hashValue : Bytes) (root : LogRootV1)
    (tr0 : List TraceEvent) (resp : GetInclusionProofByHashResponse)
    (err? : Option GoErr) (evs : List TraceEvent)
    (hroot : t.root u = (.ok (root, none), tr0))
    (hrpc : t.client.getInclusionProofByHash Ctx.timeout20
        { logId := t.logID, leafHash := hashValue, treeSize := uint64ToInt64 root.treeSize }
        = (some resp, err?))
    (hvp : verifyProofs v (uint64ToInt64 root.treeSize) root.rootHash hashValue resp.proof
        = (none, evs)) :
    t.getProofByHash u v hashValue
      = (.ok (some { status := statusCode err?, getProofResult := some resp }, none),
         (tr0 ++ [TraceEvent.rpcInclusionProof (some 20)
           { logId := t.logID, leafHash := hashValue, treeSize := uint64ToInt64 root.treeSize }]) ++ evs) := by
  simp [TrillianClient.getProofByHash, hroot, hrpc, hvp, Ctx.timeout20_deadline]

theorem getConsistencyProof_returns_unverified_witness :
    (okClient.getConsistencyProof 1 2).1
      = .ok (some { status := statusCode none, getConsistencyProofResult := some sampleConsistencyResponse }, none) :=
  (getConsistencyProof_returns_unverified okClient 1 2 sampleConsistencyResponse rfl).1

/-- Claim C1: when the root fetch succeeded and the remote authority
returned a proof response, `getProofByHash` runs the verifier on every
returned proof entry (one verifier trace event per entry): the proof
result is returned, with a nil Go error, exactly when the verifier accepts
all entries; the first verification failure makes the operation return
`&Response{}` (no proof) together with that error.  The final equivalence
ties the loop's outcome to acceptance of every entry. -/
theorem getProofByHash_verifies_every_entry (t : TrillianClient) (u : UnmarshalLogRoot)
    (v : InclusionVerifier) (hashValue : Bytes) (root : LogRootV1)
    (tr0 : List TraceEvent) (resp : GetInclusionProofByHashResponse) (err? : Option GoErr)
    (hroot : t.root u = (.ok (root, none), tr0))
    (hrpc : t.client.getInclusionProofByHash Ctx.timeout20
        { logId := t.logID, leafHash := hashValue, treeSize := uint64ToInt64 root.treeSize }
        = (some resp, err?)) :
    ((∀ p ∈ resp.proof,
        v p.leafIndex (uint64ToInt64 root.treeSize) p.hashes root.rootHash hashValue = none) →
      (t.getProofByHash u v hashValue).1
          = .ok (some { status := statusCode err?, getProofResult := some resp }, none)
        ∧ ∀ p ∈ resp.proof,
            TraceEvent.verifyInclusion p.leafIndex (uint64ToInt64 root.treeSize) p.hashes
                root.rootHash hashValue
              ∈ (t.getProofByHash u v hashValue).2)
    ∧ (∀ e, (verifyProofs v (uint64ToInt64 root.treeSize) root.rootHash hashValue resp.proof).1
          = some e →
        (t.getProofByHash u v hashValue).1 = .ok (some Response.empty, some e))
    ∧ ((verifyProofs v (uint64ToInt64 root.treeSize) root.rootHash hashValue resp.proof).1 = none
        ↔ ∀ p ∈ resp.proof,
            v p.leafIndex (uint64ToInt64 root.treeSize) p.hashes root.rootHash hashValue = none) := by
  refine ⟨?_, ?_, verifyProofs_none_iff v _ _ _ _⟩
  · intro hall
    have hv1 : (verifyProofs v (uint64ToInt64 root.treeSize) root.rootHash hashValue resp.proof).1
        = none := (verifyProofs_none_iff v _ _ _ _).mpr hall
    have hevs := verifyProofs_events_of_none v (uint64ToInt64 root.treeSize) root.rootHash
      hashValue resp.proof hv1
    rcases hvp : verifyProofs v (uint64ToInt64 root.treeSize) root.rootHash hashValue resp.proof
      with ⟨r?, evs⟩
    rw [hvp] at hv1 hevs
    dsimp only at hv1 hevs
    subst hv1
    have heq := getProofByHash_eq_verified t u v hashValue root tr0 resp err? evs hroot hrpc hvp
    refine ⟨by rw [heq], ?_⟩
    intro p hp
    rw [heq]
    dsimp only
    refine List.mem_append_right _ ?_
    rw [hevs]
    exact List.mem_map_of_mem _ hp
  · intro e he
    rcases hvp : verifyProofs v (uint64ToInt64 root.treeSize) root.rootHash hashValue resp.proof
      with ⟨r?, evs⟩
    rw [hvp] at he
    dsimp only at he
    subst he
    rw [getProofByHash_eq_verifyFail t u v hashValue root tr0 resp err? e evs hroot hrpc hvp]

theorem getProofByHash_verifies_every_entry_witness :
    (okClient.getProofByHash sampleUnmarshal acceptAll [42]).1
      = .ok (some { status := statusCode none, getProofResult := some { proof := [sampleProof] } },
          none)
    ∧ TraceEvent.verifyInclusion sampleProof.leafIndex (uint64ToInt64 sampleRoot.treeSize)
        sampleProof.hashes sampleRoot.rootHash [42]
      ∈ (okClient.getProofByHash sampleUnmarshal acceptAll [42]).2 := by
  have h := (getProofByHash_verifies_every_entry okClient sampleUnmarshal acceptAll [42]
    sampleRoot [TraceEvent.rpcLatestRoot none { logId := 1, firstTreeSize := 0 }]
    { proof := [sampleProof] } none
    (by simp [TrillianClient.root, okClient, okLogApi, TrillianClientInstance, sampleUnmarshal,
      okSignedLogRoot, Ctx.background_deadline])
    rfl).1 (by intro p hp; rfl)
  exact ⟨h.1, h.2 sampleProof (List.mem_singleton.mpr rfl)⟩

/-- Claim C2: under a succeeded root fetch, the trace of `getProofByHash`
is: first the (single) root fetch, then the inclusion-proof request whose
`TreeSize` field is exactly the fetched root's tree size, then verifier
invocations only — and every verifier invocation uses that same root's
tree size and root hash and the requested leaf hash, never data from any
other root. -/
theorem getProofByHash_scoped_to_fetched_root (t : TrillianClient) (u : UnmarshalLogRoot)
    (v : InclusionVerifier) (hashValue : Bytes) (root : LogRootV1) (tr0 : List TraceEvent)
    (hroot : t.root u = (.ok (root, none), tr0)) :
    ∃ evs,
      (t.getProofByHash u v hashValue).2
        = tr0 ++ TraceEvent.rpcInclusionProof (some 20)
            { logId := t.logID, leafHash := hashValue, treeSize := uint64ToInt64 root.treeSize }
            :: evs
      ∧ (∀ li ts hs rh lh, TraceEvent.verifyInclusion li ts hs rh lh ∈ evs →
          ts = uint64ToInt64 root.treeSize ∧ rh = root.rootHash ∧ lh = hashValue)
      ∧ tr0 = [TraceEvent.rpcLatestRoot none { logId := t.logID, firstTreeSize := 0 }] := by
  have htr0 : tr0 = [TraceEvent.rpcLatestRoot none { logId := t.logID, firstTreeSize := 0 }] := by
    have h := root_trace t u
    rw [hroot] at h
    exact h
  rcases hrpc : t.client.getInclusionProofByHash Ctx.timeout20
      { logId := t.logID, leafHash := hashValue, treeSize := uint64ToInt64 root.treeSize }
    with ⟨resp?, err?⟩
  cases resp? with
  | none =>
    refine ⟨[], ?_, by simp, htr0⟩
    rw [getProofByHash_eq_noResp t u v hashValue root tr0 err? hroot hrpc]
  | some resp =>
    rcases hvp : verifyProofs v (uint64ToInt64 root.treeSize) root.rootHash hashValue resp.proof
      with ⟨r?, evs⟩
    have hmem : ∀ li ts hs rh lh, TraceEvent.verifyInclusion li ts hs rh lh ∈ evs →
        ts = uint64ToInt64 root.treeSize ∧ rh = root.rootHash ∧ lh = hashValue := by
      intro li ts hs rh lh h
      obtain ⟨p, hp, heq⟩ := verifyProofs_events_mem v (uint64ToInt64 root.treeSize) root.rootHash
        hashValue resp.proof _ (by rw [hvp]; exact h)
      simp only [TraceEvent.verifyInclusion.injEq] at heq
      exact ⟨heq.2.1, heq.2.2.2.1, heq.2.2.2.2⟩
    cases r? with
    | none =>
      refine ⟨evs, ?_, hmem, htr0⟩
      rw [getProofByHash_eq_verified t u v hashValue root tr0 resp err? evs hroot hrpc hvp]
      simp
    | some e =>
      refine ⟨evs, ?_, hmem, htr0⟩
      rw [getProofByHash_eq_verifyFail t u v hashValue root tr0 resp err? e evs hroot hrpc hvp]
      simp

theorem getProofByHash_scoped_to_fetched_root_witness :
    ∃ evs,
      (okClient.getProofByHash sampleUnmarshal acceptAll [42]).2
        = [TraceEvent.rpcLatestRoot none { logId := 1, firstTreeSize := 0 }]
          ++ TraceEvent.rpcInclusionProof (some 20)
              { logId := 1, leafHash := [42], treeSize := uint64ToInt64 sampleRoot.treeSize }
              :: evs
      ∧ (∀ li ts hs rh lh, TraceEvent.verifyInclusion li ts hs rh lh ∈ evs →
          ts = uint64ToInt64 sampleRoot.treeSize ∧ rh = sampleRoot.rootHash ∧ lh = [42])
      ∧ [TraceEvent.rpcLatestRoot none ({ logId := 1, firstTreeSize := 0 } :
            GetLatestSignedLogRootRequest)]
          = [TraceEvent.rpcLatestRoot none { logId := 1, firstTreeSize := 0 }] :=
  getProofByHash_scoped_to_fetched_root okClient sampleUnmarshal acceptAll [42] sampleRoot
    [TraceEvent.rpcLatestRoot none { logId := 1, firstTreeSize := 0 }]
    (by simp [TrillianClient.root, okClient, okLogApi, TrillianClientInstance, sampleUnmarshal,
      okSignedLogRoot, Ctx.background_deadline])

/-- Every event of `getProofByHash` is the deadline-free root fetch, the
inclusion-proof request under the 20-second deadline, or a verifier
invocation. -/
theorem getProofByHash_trace_shape (t : TrillianClient) (u : UnmarshalLogRoot)
    (v : InclusionVerifier) (hashValue : Bytes) :
    ∀ ev ∈ (t.getProofByHash u v hashValue).2,
      (∃ rqst, ev = TraceEvent.rpcLatestRoot none rqst)
      ∨ (∃ rqst, ev = TraceEvent.rpcInclusionProof (some 20) rqst)
      ∨ (∃ li ts hs rh lh, ev = TraceEvent.verifyInclusion li ts hs rh lh) := by
  intro ev hev
  rcases hroot : t.root u with ⟨res, tr0⟩
  have htr0 : tr0 = [TraceEvent.rpcLatestRoot none { logId := t.logID, firstTreeSize := 0 }] := by
    have h := root_trace t u
    rw [hroot] at h
    exact h
  have hmem0 : ∀ x : TraceEvent, x ∈ tr0 → ∃ rqst, x = TraceEvent.rpcLatestRoot none rqst := by
    intro x hx
    rw [htr0] at hx
    rw [List.mem_singleton] at hx
    exact ⟨_, hx⟩
  rcases res with c | ⟨root, e?⟩
  · rw [getProofByHash_eq_crash t u v hashValue c tr0 hroot] at hev
    exact .inl (hmem0 ev hev)
  · rcases e? with _ | e
    · rcases hrpc : t.client.getInclusionProofByHash Ctx.timeout20
          { logId := t.logID, leafHash := hashValue, treeSize := uint64ToInt64 root.treeSize }
        with ⟨resp?, err?⟩
      cases resp? with
      | none =>
        rw [getProofByHash_eq_noResp t u v hashValue root tr0 err? hroot hrpc] at hev
        dsimp only at hev
        rcases List.mem_append.mp hev with h1 | h2
        · exact .inl (hmem0 ev h1)
        · rw [List.mem_singleton] at h2
          exact .inr (.inl ⟨_, h2⟩)
      | some resp =>
        rcases hvp : verifyProofs v (uint64ToInt64 root.treeSize) root.rootHash hashValue
            resp.proof with ⟨r?, evs⟩
        have hsplit : ev ∈ (tr0 ++ [TraceEvent.rpcInclusionProof (some 20)
            { logId := t.logID, leafHash := hashValue, treeSize := uint64ToInt64 root.treeSize }])
            ++ evs := by
          cases r? with
          | none =>
            rw [getProofByHash_eq_verified t u v hashValue root tr0 resp err? evs hroot hrpc hvp]
              at hev
            exact hev
          | some e =>
            rw [getProofByHash_eq_verifyFail t u v hashValue root tr0 resp err? e evs hroot hrpc
              hvp] at hev
            exact hev
        rcases List.mem_append.mp hsplit with h1 | h2
        · rcases List.mem_append.mp h1 with h3 | h4
          · exact .inl (hmem0 ev h3)
          · rw [List.mem_singleton] at h4
            exact .inr (.inl ⟨_, h4⟩)
        · obtain ⟨p, _, heq⟩ := verifyProofs_events_mem v (uint64ToInt64 root.treeSize)
            root.rootHash hashValue resp.proof _ (by rw [hvp]; exact h2)
          exact .inr (.inr ⟨_, _, _, _, _, heq⟩)
    · rw [getProofByHash_eq_rootErr t u v hashValue root e tr0 hroot] at hev
      exact .inl (hmem0 ev hev)

/-- Claim C6 counterexample: the root fetch and the batched lookup by hash
are NOT performed under a deadline — each one's single remote call carries
the background context, whose deadline (`none`) is not the claimed
20-second bound. -/
theorem root_and_leaf_lookup_have_no_deadline :
    (failingClient.root sampleUnmarshal).2
      = [TraceEvent.rpcLatestRoot none { logId := 1, firstTreeSize := 0 }]
    ∧ (failingClient.getLeafByHash [[1]]).2
      = [TraceEvent.rpcLeavesByHash none { logId := 1, leafHash := [[1]] }]
    ∧ (none : Option Nat) ≠ some 20 :=
  ⟨rfl, rfl, by simp⟩

/-- Claim C6 (amended): `getLeafByIndex`, `getLatest`, and
`getConsistencyProof` make their remote calls under the 20-second
deadline, and so does the inclusion-proof request inside `getProofByHash`;
but `root`, `getLeafByHash`, `addLeaf`, and the root fetch inside
`getProofByHash` run on a background context with no deadline. -/
theorem deadline_policy_amended (t : TrillianClient) (u : UnmarshalLogRoot)
    (v : InclusionVerifier) (hashValue byteValue : Bytes) (hashValues : List Bytes)
    (indexes : List Int) (a b : Int) :
    (∀ ev ∈ (t.getLeafByIndex indexes).2, ev.rpcDeadline = some (some 20))
    ∧ (∀ ev ∈ (t.getLatest a).2, ev.rpcDeadline = some (some 20))
    ∧ (∀ ev ∈ (t.getConsistencyProof a b).2, ev.rpcDeadline = some (some 20))
    ∧ (∀ ev ∈ (t.root u).2, ev.rpcDeadline = some none)
    ∧ (∀ ev ∈ (t.getLeafByHash hashValues).2, ev.rpcDeadline = some none)
    ∧ (∀ ev ∈ (t.addLeaf byteValue).2, ev.rpcDeadline = some none)
    ∧ (∀ d rqst, TraceEvent.rpcInclusionProof d rqst ∈ (t.getProofByHash u v hashValue).2 →
        d = some 20)
    ∧ (∀ d rqst, TraceEvent.rpcLatestRoot d rqst ∈ (t.getProofByHash u v hashValue).2 →
        d = none) := by
  refine ⟨?_, ?_, ?_, ?_, ?_, ?_, ?_, ?_⟩
  · intro ev hev
    rw [getLeafByIndex_trace, List.mem_singleton] at hev
    subst hev
    rfl
  · intro ev hev
    rw [getLatest_trace, List.mem_singleton] at hev
    subst hev
    rfl
  · intro ev hev
    rw [getConsistencyProof_trace, List.mem_singleton] at hev
    subst hev
    rfl
  · intro ev hev
    rw [root_trace, List.mem_singleton] at hev
    subst hev
    rfl
  · intro ev hev
    rw [getLeafByHash_trace, List.mem_singleton] at hev
    subst hev
    rfl
  · intro ev hev
    rw [addLeaf_trace, List.mem_singleton] at hev
    subst hev
    rfl
  · intro d rqst h
    rcases getProofByHash_trace_shape t u v hashValue _ h with ⟨rq, heq⟩ | ⟨rq, heq⟩ | heq
    · exact absurd heq (by simp)
    · simp only [TraceEvent.rpcInclusionProof.injEq] at heq
      exact heq.1
    · obtain ⟨li, ts, hs, rh, lh, heq⟩ := heq
      exact absurd heq (by simp)
  · intro d rqst h
    rcases getProofByHash_trace_shape t u v hashValue _ h with ⟨rq, heq⟩ | ⟨rq, heq⟩ | heq
    · simp only [TraceEvent.rpcLatestRoot.injEq] at heq
      exact heq.1
    · exact absurd heq (by simp)
    · obtain ⟨li, ts, hs, rh, lh, heq⟩ := heq
      exact absurd heq (by simp)

theorem deadline_policy_amended_witness :
    TraceEvent.rpcDeadline
        (TraceEvent.rpcLeavesByIndex (some 20) { logId := 1, leafIndex := [0] })
      = some (some 20)
    ∧ TraceEvent.rpcDeadline (TraceEvent.rpcLatestRoot none { logId := 1, firstTreeSize := 0 })
      = some none :=
  ⟨(deadline_policy_amended failingClient sampleUnmarshal acceptAll [] [] [] [0] 0 0).1 _
      (by rw [getLeafByIndex_trace]; exact List.mem_singleton.mpr rfl),
   (deadline_policy_amended failingClient sampleUnmarshal acceptAll [] [] [] [0] 0 0).2.2.2.1 _
      (by rw [root_trace]; exact List.mem_singleton.mpr rfl)⟩

/-- Honest-admin unfolding lemma: when a LOG-type tree is already in
scope, the bootstrapper returns the first one found, changes nothing and
creates nothing. -/
theorem createAndInitTree_honest_found (trees : List Tree) (nextId : Int) (t0 : Tree)
    (h : trees.find? (fun t => t.treeType == TreeType.log) = some t0) :
    createAndInitTree Ctx.background honestAdmin honestInitLog ⟨trees, nextId⟩
      = (.ok (some t0, none), ⟨trees, nextId⟩, [AdminEvent.listTrees {}]) := by
  simp [createAndInitTree, honestAdmin, h]

/-- Honest-admin unfolding lemma: with no LOG-type tree in scope, the
bootstrapper creates the fixed LOG tree spec under a fresh identifier,
initializes it and returns it. -/
theorem createAndInitTree_honest_create (s : AdminState)
    (h : s.trees.find? (fun t => t.treeType == TreeType.log) = none) :
    createAndInitTree Ctx.background honestAdmin honestInitLog s
      = (.ok (some { newTreeSpec with treeId := s.nextId }, none),
         { trees := s.trees ++ [{ newTreeSpec with treeId := s.nextId }],
           nextId := s.nextId + 1 },
         [AdminEvent.listTrees {}, AdminEvent.createTree newTreeRequest,
          AdminEvent.initLog { newTreeSpec with treeId := s.nextId }]) := by
  simp [createAndInitTree, honestAdmin, honestInitLog, newTreeRequest, h]

/-- Claim C5: against the (spec-modelled) stateful admin service,
`createAndInitTree` first lists the trees in scope and, when any listed
tree has type LOG, returns the first such tree with no creation call (its
trace is the listing only, and the scope is unchanged); consequently two
successive calls in the same scope both succeed, return the same tree
identifier, and the second call performs no creation. -/
theorem createAndInitTree_first_found_idempotent (s : AdminState) :
    (∀ t0, s.trees.find? (fun t => t.treeType == TreeType.log) = some t0 →
        createAndInitTree Ctx.background honestAdmin honestInitLog s
          = (.ok (some t0, none), s, [AdminEvent.listTrees {}]))
    ∧ ∃ t1 t2 : Tree,
        (createAndInitTree Ctx.background honestAdmin honestInitLog s).1 = .ok (some t1, none)
        ∧ (createAndInitTree Ctx.background honestAdmin honestInitLog
            ((createAndInitTree Ctx.background honestAdmin honestInitLog s).2.1)).1
          = .ok (some t2, none)
        ∧ t1.treeId = t2.treeId
        ∧ ∀ rqst, AdminEvent.createTree rqst ∉
            (createAndInitTree Ctx.background honestAdmin honestInitLog
              ((createAndInitTree Ctx.background honestAdmin honestInitLog s).2.1)).2.2 := by
  constructor
  · intro t0 h
    exact createAndInitTree_honest_found s.trees s.nextId t0 h
  · cases hfind : s.trees.find? (fun t => t.treeType == TreeType.log) with
    | some t0 =>
      have h1 : createAndInitTree Ctx.background honestAdmin honestInitLog s
          = (.ok (some t0, none), s, [AdminEvent.listTrees {}]) :=
        createAndInitTree_honest_found s.trees s.nextId t0 hfind
      refine ⟨t0, t0, by rw [h1], ?_, rfl, ?_⟩
      · rw [h1]
        dsimp only
        rw [h1]
      · intro rqst
        rw [h1]
        dsimp only
        rw [h1]
        simp
    | none =>
      have h1 := createAndInitTree_honest_create s hfind
      have hfind2 : (s.trees ++ [{ newTreeSpec with treeId := s.nextId }]).find?
            (fun t => t.treeType == TreeType.log)
          = some { newTreeSpec with treeId := s.nextId } := by
        rw [List.find?_append, hfind]
        simp [List.find?, newTreeSpec]
      have h2 := createAndInitTree_honest_found
        (s.trees ++ [{ newTreeSpec with treeId := s.nextId }]) (s.nextId + 1)
        { newTreeSpec with treeId := s.nextId } hfind2
      refine ⟨{ newTreeSpec with treeId := s.nextId }, { newTreeSpec with treeId := s.nextId },
        by rw [h1], ?_, rfl, ?_⟩
      · rw [h1]
        dsimp only
        rw [h2]
      · intro rqst
        rw [h1]
        dsimp only
        rw [h2]
        simp

theorem createAndInitTree_first_found_idempotent_witness :
    createAndInitTree Ctx.background honestAdmin honestInitLog
        { trees := [existingLogTree], nextId := 100 }
      = (.ok (some existingLogTree, none), { trees := [existingLogTree], nextId := 100 },
         [AdminEvent.listTrees {}]) :=
  (createAndInitTree_first_found_idempotent { trees := [existingLogTree], nextId := 100 }).1
    existingLogTree (by simp [List.find?, existingLogTree])

end Rekor
